import Mathlib

/-!
Verification of the warden-worker vault server core against its specification.

The development shallowly embeds the Rust sources:
  * `src/models/cipher.rs`  — canonical item model and the custom `Serialize`
    implementation producing the client-facing JSON for a cipher;
  * `src/handlers/import.rs` — the bulk import reconciler (`import_data`) and
    the batched persistence executor (`execute_in_batches`);
  * `src/handlers/ciphers.rs` — the cipher construction performed by the
    create handler (used to compare a fresh cipher with a DB-loaded one).

JSON values are modelled by the inductive `Json`; serde_json object maps are
modelled as association lists of (key, value) pairs (all keys inserted by the
code are pairwise distinct, so insertion order / sortedness is irrelevant to
every property below, which only looks keys up).  Machine integers (i32) are
modelled as `Int`; JSON numbers are modelled as `Int` (the only numeric
literal the serializer produces is the reprompt default 0).  The database is
modelled as explicit state: lists of folder rows and cipher rows, with
`INSERT OR IGNORE` semantics keyed on `id`.  The fallible D1 batch call is
modelled as a function returning `Option` state; the concrete statements
the bulk importer emits never fail, while the generic executor theorems
quantify over a fallible batch application.
-/

namespace Warden

/-- JSON values (the shallow embedding of serde_json's `Value`).  Objects are
association lists in insertion order. -/
inductive Json where
  | null : Json
  | bool (b : Bool) : Json
  | num (n : Int) : Json
  | str (s : String) : Json
  | arr (elems : List Json) : Json
  | obj (fields : List (String × Json)) : Json

/-- Key lookup in a JSON object / response map (serde_json `Map::get`).
All maps built by the embedded code have pairwise-distinct keys, so taking
the first match is exact. -/
def objGet (fields : List (String × Json)) (key : String) : Option Json :=
  (fields.find? (fun p => p.1 == key)).map (fun p => p.2)

/-- `json!` of an `Option<String>`: the string, or JSON null. -/
def optStrJson : Option String → Json
  | some s => Json.str s
  | none => Json.null

/-- `json!` of an `Option<Vec<String>>`: an array of strings, or JSON null. -/
def optArrJson : Option (List String) → Json
  | some xs => Json.arr (xs.map Json.str)
  | none => Json.null

/-- `src/models/cipher.rs` lines 71-105: the `Cipher` struct stored in the
database and used in handlers.  `type` is the kind selector (i32), `data` the
payload blob (`serde_json::Value`). -/
structure Cipher where
  id : String
  user_id : Option String
  organization_id : Option String
  type : Int
  data : Json
  favorite : Bool
  folder_id : Option String
  deleted_at : Option String
  created_at : String
  updated_at : String
  object : String
  organization_use_totp : Bool
  edit : Bool
  view_password : Bool
  collection_ids : Option (List String)

/-- `src/models/cipher.rs` lines 107-119: the raw database row for a cipher
(`data` is the stored JSON text, `favorite` an integer column). -/
structure CipherDBModel where
  id : String
  user_id : String
  organization_id : Option String
  type : Int
  data : String
  favorite : Int
  folder_id : Option String
  deleted_at : Option String
  created_at : String
  updated_at : String

/-- `src/models/cipher.rs` lines 241-243: `fn default_object`. -/
def default_object : String := "cipher"

/-- `src/models/cipher.rs` lines 245-247: `fn default_true`. -/
def default_true : Bool := true

/-- `src/models/cipher.rs` lines 121-144: `impl Into<Cipher> for CipherDBModel`.
The stored text is parsed by `serde_json::from_str`; the parser is passed in
as `fromStr` (an external library function), with `unwrap_or_default`
yielding `Value::Null` when parsing fails.  Note line 137 sets the `object`
field to the string literal "default_object", not to the value of the
`default_object` function. -/
def cipherOfDBModel (fromStr : String → Option Json) (m : CipherDBModel) : Cipher :=
  { id := m.id
    user_id := some m.user_id
    organization_id := m.organization_id
    type := m.type
    data := (fromStr m.data).getD Json.null
    favorite := match m.favorite with
      | 0 => false
      | _ => true
    folder_id := m.folder_id
    deleted_at := m.deleted_at
    created_at := m.created_at
    updated_at := m.updated_at
    object := "default_object"
    organization_use_totp := false
    edit := true
    view_password := true
    collection_ids := none }

/-- `src/models/cipher.rs` lines 28-67: `deserialize_bool_from_int`, driven by
a serde_json value.  The visitor implements `visit_bool` and `visit_u64`
(0 ↦ false, 1 ↦ true, other non-negative integers rejected); every other
shape — negative integers (`visit_i64`), floats, strings, arrays, objects,
null — hits the visitor's default methods, which are errors. -/
def deserialize_bool_from_int : Json → Except String Bool
  | Json.bool b => Except.ok b
  | Json.num n =>
    if n = 0 then Except.ok false
    else if n = 1 then Except.ok true
    else Except.error "invalid value: expected 0 or 1"
  | _ => Except.error "invalid type: expected a boolean or an integer 0 or 1"

/-- `src/models/cipher.rs` lines 146-239: the custom `Serialize` for `Cipher`,
building the client-facing response map.  The map construction is total (the
Rust code can only fail if the downstream serializer fails, never in the map
assembly itself), so encoding always produces a response. -/
def serializeCipher (c : Cipher) : List (String × Json) :=
  let head : List (String × Json) :=
    [("object", Json.str c.object), ("id", Json.str c.id)]
    ++ (match c.user_id with
        | some u => [("userId", Json.str u)]
        | none => [])
    ++ [("organizationId", optStrJson c.organization_id),
        ("folderId", optStrJson c.folder_id),
        ("type", Json.num c.type),
        ("favorite", Json.bool c.favorite),
        ("edit", Json.bool c.edit),
        ("viewPassword", Json.bool c.view_password),
        ("permissions", Json.obj [("delete", Json.bool c.edit), ("restore", Json.bool c.edit)]),
        ("organizationUseTotp", Json.bool c.organization_use_totp),
        ("collectionIds", optArrJson c.collection_ids),
        ("revisionDate", Json.str c.updated_at),
        ("creationDate", Json.str c.created_at),
        ("deletedDate", optStrJson c.deleted_at)]
  let payload : List (String × Json) :=
    match c.data with
    | Json.obj fields =>
      let login := if c.type = 1 then (objGet fields "login").getD Json.null else Json.null
      let secure_note := if c.type = 2 then (objGet fields "secureNote").getD Json.null else Json.null
      let card := if c.type = 3 then (objGet fields "card").getD Json.null else Json.null
      let identity := if c.type = 4 then (objGet fields "identity").getD Json.null else Json.null
      [("name", (objGet fields "name").getD Json.null),
       ("notes", (objGet fields "notes").getD Json.null),
       ("fields", (objGet fields "fields").getD Json.null),
       ("passwordHistory", (objGet fields "passwordHistory").getD Json.null),
       ("reprompt", (objGet fields "reprompt").getD (Json.num 0)),
       ("login", login),
       ("secureNote", secure_note),
       ("card", card),
       ("identity", identity)]
    | _ =>
      [("name", Json.null), ("notes", Json.null), ("fields", Json.null),
       ("passwordHistory", Json.null), ("reprompt", Json.null), ("login", Json.null),
       ("secureNote", Json.null), ("card", Json.null), ("identity", Json.null)]
  head ++ payload

/-- Whether a JSON value is an object (`Value::as_object` succeeds). -/
def isObjJson : Json → Bool
  | Json.obj _ => true
  | _ => false

/-- `src/models/cipher.rs` lines 5-25: the `CipherData` payload stored in the
`data` column. -/
structure CipherData where
  name : String
  notes : Option String
  login : Option Json
  card : Option Json
  identity : Option Json
  secure_note : Option Json
  fields : Option Json
  password_history : Option Json
  reprompt : Option Int

/-- Optional camelCase field emission (`skip_serializing_if = Option::is_none`). -/
def optField (key : String) : Option Json → List (String × Json)
  | some v => [(key, v)]
  | none => []

/-- `serde_json::to_value` on `CipherData`: a JSON object with camelCase keys
in declaration order, absent optional fields omitted. -/
def cipherDataToValue (d : CipherData) : Json :=
  Json.obj ([("name", Json.str d.name)]
    ++ optField "notes" (d.notes.map Json.str)
    ++ optField "login" d.login
    ++ optField "card" d.card
    ++ optField "identity" d.identity
    ++ optField "secureNote" d.secure_note
    ++ optField "fields" d.fields
    ++ optField "passwordHistory" d.password_history
    ++ optField "reprompt" (d.reprompt.map Json.num))

/-- `src/models/cipher.rs` lines 250-283: the cipher object of an incoming
request. -/
structure CipherRequestData where
  type : Int
  folder_id : Option String
  organization_id : Option String
  name : String
  notes : Option String
  favorite : Bool
  login : Option Json
  card : Option Json
  identity : Option Json
  secure_note : Option Json
  fields : Option Json
  password_history : Option Json
  reprompt : Option Int
  last_known_revision_date : Option String
  key : Option String

/-- `src/models/cipher.rs` lines 287-295: the full create request. -/
structure CreateCipherRequest where
  cipher : CipherRequestData
  collection_ids : List String

/-- `src/handlers/ciphers.rs` lines 14-58: the `Cipher` value built by the
create handler (`create_cipher`), given the authenticated principal `sub`,
the formatted timestamp `now` and the freshly generated uuid `fresh_id`. -/
def create_cipher (sub now fresh_id : String) (payload : CreateCipherRequest) : Cipher :=
  let req := payload.cipher
  let cipher_data : CipherData :=
    { name := req.name
      notes := req.notes
      login := req.login
      card := req.card
      identity := req.identity
      secure_note := req.secure_note
      fields := req.fields
      password_history := req.password_history
      reprompt := req.reprompt }
  { id := fresh_id
    user_id := some sub
    organization_id := req.organization_id
    type := req.type
    data := cipherDataToValue cipher_data
    favorite := req.favorite
    folder_id := req.folder_id
    deleted_at := none
    created_at := now
    updated_at := now
    object := "cipher"
    organization_use_totp := false
    edit := true
    view_password := true
    collection_ids := if payload.collection_ids.isEmpty then none else some payload.collection_ids }

/-- A folder record as stored in the `folders` table (`src/models/folder.rs`,
whose fields are fixed by its construction in `src/handlers/import.rs`
lines 61-67 and the spec's data model). -/
structure Folder where
  id : String
  user_id : String
  name : String
  created_at : String
  updated_at : String

/-- A cipher row as written by the import insert (`src/handlers/import.rs`
lines 137-150: the nine bound columns).  The `data` column holds the
serialized `CipherData`; we keep the structured value. -/
structure CipherRow where
  id : String
  user_id : Option String
  organization_id : Option String
  type : Int
  data : Json
  favorite : Bool
  folder_id : Option String
  created_at : String
  updated_at : String

/-- Modelled from the spec: `src/models/import.rs` is not part of the
sources; the import wire shapes are reconstructed from their uses in
`src/handlers/import.rs` and the spec's wire contract
(`folders: [{id, name}]` with client-supplied temporary ids). -/
structure ImportFolder where
  id : String
  name : String

/-- Modelled from the spec: a `folderRelationships` entry
(`{key: itemIndex, value: folderIndex}`), as used at
`src/handlers/import.rs` lines 87-93. -/
structure FolderRelationship where
  key : Nat
  value : Nat

/-- Modelled from the spec: an import item descriptor, reconstructed from the
fields read in `src/handlers/import.rs` lines 98-133. -/
structure ImportCipher where
  encrypted_for : String
  type : Int
  name : String
  notes : Option String
  login : Option Json
  card : Option Json
  identity : Option Json
  secure_note : Option Json
  fields : Option Json
  password_history : Option Json
  reprompt : Option Int
  favorite : Bool
  folder_id : Option String
  organization_id : Option String

/-- Modelled from the spec: the import request body
(`{folders, ciphers, folderRelationships}`). -/
structure ImportRequest where
  folders : List ImportFolder
  ciphers : List ImportCipher
  folder_relationships : List FolderRelationship

/-- The error type of the handlers (`src/error.rs` is not part of the
sources; the variants are those raised in `src/handlers/import.rs`). -/
inductive AppError where
  | BadRequest (msg : String) : AppError
  | Database : AppError
  | Internal : AppError
  | NotFound (msg : String) : AppError
deriving DecidableEq

/-- The database state: the `folders` and `ciphers` tables, rows in
insertion order. -/
structure Db where
  folders : List Folder
  ciphers : List CipherRow

/-- The empty database. -/
def emptyDb : Db := { folders := [], ciphers := [] }

/-- A prepared insert statement built by the import handler. -/
inductive Stmt where
  | insertFolder (f : Folder) : Stmt
  | insertCipher (r : CipherRow) : Stmt

/-- `INSERT OR IGNORE` semantics of one statement: a row whose `id` is
already present leaves the table unchanged, otherwise the row is appended. -/
def applyStmt (db : Db) : Stmt → Db
  | Stmt.insertFolder f =>
    if db.folders.any (fun g => g.id == f.id) then db
    else { db with folders := db.folders ++ [f] }
  | Stmt.insertCipher r =>
    if db.ciphers.any (fun s => s.id == r.id) then db
    else { db with ciphers := db.ciphers ++ [r] }

/-- One `db.batch` call on the concrete import statements: the chunk is
applied atomically; these statements themselves never fail. -/
def applyBatch (db : Db) (chunk : List Stmt) : Option Db :=
  some (chunk.foldl applyStmt db)

/-- `<[_]>::chunks`: split a list into consecutive chunks of size `c`, the
last chunk possibly shorter.  Structural recursion on a fuel argument (the
list length bounds the number of chunks whenever `1 ≤ c`; the Rust slice
method requires a positive chunk size and the embedded code only calls this
with a positive one). -/
def chunksOfAux (fuel : Nat) (c : Nat) (xs : List α) : List (List α) :=
  match fuel, xs with
  | 0, _ => []
  | _, [] => []
  | fuel + 1, x :: rest => (x :: rest).take c :: chunksOfAux fuel c ((x :: rest).drop c)

/-- The chunks of `xs` of size `c` (faithful to the source for `1 ≤ c`). -/
def chunksOf (c : Nat) (xs : List α) : List (List α) :=
  chunksOfAux xs.length c xs

/-- The chunk loop of `execute_in_batches` (`src/handlers/import.rs`
lines 38-40): run each chunk in order through the fallible batch
application `appB`; on the first failure stop, returning the state reached
so far and `false` (the surfaced error); otherwise the final state and
`true`. -/
def runBatches (appB : σ → List α → Option σ) : σ → List (List α) → σ × Bool
  | st, [] => (st, true)
  | st, chunk :: rest =>
    match appB st chunk with
    | some st1 => runBatches appB st1 rest
    | none => (st, false)

/-- `src/handlers/import.rs` lines 24-44: `execute_in_batches`.  Empty
statement lists succeed immediately; `batch_size == 0` executes everything
as one batch; otherwise the statements are chunked and executed in order. -/
def execute_in_batches (appB : σ → List α → Option σ) (st : σ)
    (statements : List α) (batch_size : Nat) : σ × Bool :=
  if statements.isEmpty then (st, true)
  else if batch_size = 0 then
    match appB st statements with
    | some st1 => (st1, true)
    | none => (st, false)
  else runBatches appB st (chunksOf batch_size statements)

/-- One iteration of the folder-relationship loop
(`src/handlers/import.rs` lines 87-93): if `rel.key` indexes an item and
`rel.value` indexes a folder, set that item's `folder_id` to that folder's
id; otherwise do nothing. -/
def relStep (folders : List ImportFolder) (cs : List ImportCipher)
    (rel : FolderRelationship) : List ImportCipher :=
  match cs[rel.key]?, folders[rel.value]? with
  | some c, some f => cs.set rel.key { c with folder_id := some f.id }
  | _, _ => cs

/-- `src/handlers/import.rs` lines 87-93: the whole folder-relationship
loop, processing the relationships in order. -/
def applyRelationships (folders : List ImportFolder)
    (rels : List FolderRelationship) (ciphers : List ImportCipher) : List ImportCipher :=
  rels.foldl (relStep folders) ciphers

/-- The `CipherData` built from one import item
(`src/handlers/import.rs` lines 103-113). -/
def cipherDataOfImport (c : ImportCipher) : CipherData :=
  { name := c.name
    notes := c.notes
    login := c.login
    card := c.card
    identity := c.identity
    secure_note := c.secure_note
    fields := c.fields
    password_history := c.password_history
    reprompt := c.reprompt }

/-- The cipher row built for the import item `c` with generated uuid `uuid`
(`src/handlers/import.rs` lines 117-150). -/
def importCipherRow (sub now uuid : String) (c : ImportCipher) : CipherRow :=
  { id := uuid
    user_id := some sub
    organization_id := c.organization_id
    type := c.type
    data := cipherDataToValue (cipherDataOfImport c)
    favorite := c.favorite
    folder_id := c.folder_id
    created_at := now
    updated_at := now }

/-- The cipher-statement loop (`src/handlers/import.rs` lines 98-153): walk
the items in order; the first item whose `encrypted_for` differs from the
principal aborts with a bad-request error before any cipher statement is
executed; otherwise every item becomes a row whose id is the `i`-th
generated uuid. -/
def buildCipherRows (sub now : String) (gen : Nat → String) :
    Nat → List ImportCipher → Except AppError (List CipherRow)
  | _, [] => Except.ok []
  | i, c :: rest =>
    if c.encrypted_for == sub then
      match buildCipherRows sub now gen (i + 1) rest with
      | Except.ok rows => Except.ok (importCipherRow sub now (gen i) c :: rows)
      | Except.error e => Except.error e
    else Except.error (AppError.BadRequest "Cipher encrypted for wrong user")

/-- The folder record built for one import folder descriptor
(`src/handlers/import.rs` lines 61-67): the id is the client-supplied
`import_folder.id`, the owner the authenticated principal. -/
def importFolderRecord (sub now : String) (f : ImportFolder) : Folder :=
  { id := f.id
    user_id := sub
    name := f.name
    created_at := now
    updated_at := now }

/-- `src/handlers/import.rs` lines 47-159: `import_data`.  The state passed
around is the database; `gen i` models the `i`-th `Uuid::new_v4()` drawn for
cipher rows; `now` is the single formatted timestamp captured once.  Phases,
in source order: build and execute folder insert statements; resolve folder
relationships; build cipher statements, checking ownership of every item
(aborting before executing any cipher statement on a mismatch); execute
cipher statements.  `folderStatements` is the list of folder insert
statements built at lines 58-81. -/
def folderStatements (sub now : String) (payload : ImportRequest) : List Stmt :=
  payload.folders.map (fun f => Stmt.insertFolder (importFolderRecord sub now f))

/-- `src/handlers/import.rs` lines 47-159: `import_data`, the handler body
(see `folderStatements` above for the folder phase statements). -/
def import_data (sub now : String) (batch_size : Nat) (gen : Nat → String)
    (payload : ImportRequest) (db : Db) : Db × Except AppError Unit :=
  let folder_statements := folderStatements sub now payload
  match execute_in_batches applyBatch db folder_statements batch_size with
  | (db1, false) => (db1, Except.error AppError.Database)
  | (db1, true) =>
    let ciphers := applyRelationships payload.folders payload.folder_relationships payload.ciphers
    match buildCipherRows sub now gen 0 ciphers with
    | Except.error e => (db1, Except.error e)
    | Except.ok rows =>
      let cipher_statements := rows.map Stmt.insertCipher
      match execute_in_batches applyBatch db1 cipher_statements batch_size with
      | (db2, false) => (db2, Except.error AppError.Database)
      | (db2, true) => (db2, Except.ok ())

/-- Indexed map used to describe the cipher rows the import builds. -/
def mapWithIndex (f : Nat → α → β) : Nat → List α → List β
  | _, [] => []
  | i, c :: rest => f i c :: mapWithIndex f (i + 1) rest

/-- The payload field selected by a cipher kind (`match self.r#type` at
`src/models/cipher.rs` lines 213-219). -/
def selName : Int → String
  | 1 => "login"
  | 2 => "secureNote"
  | 3 => "card"
  | _ => "identity"

/-- Whether a relationship entry applies to the item at position `i`, given
the number of folders: its `key` names `i` and its `value` is in range. -/
def relApplies (numFolders : Nat) (i : Nat) (r : FolderRelationship) : Bool :=
  r.key == i && decide (r.value < numFolders)

/-- The last relationship entry that applies to the item at position `i`
(the loop processes entries in order, so the last applicable one wins). -/
def lastHit (numFolders : Nat) (rels : List FolderRelationship) (i : Nat) :
    Option FolderRelationship :=
  (rels.filter (relApplies numFolders i)).getLast?

/-- A minimal import item owned by principal "u1". -/
def iGood : ImportCipher :=
  { encrypted_for := "u1"
    type := 1
    name := "item"
    notes := none
    login := none
    card := none
    identity := none
    secure_note := none
    fields := none
    password_history := none
    reprompt := none
    favorite := false
    folder_id := none
    organization_id := none }

/-- An import item encrypted for a different principal. -/
def iBad : ImportCipher := { iGood with encrypted_for := "attacker" }

/-- An import batch with one folder and one item owned by "u1". -/
def pGood : ImportRequest :=
  { folders := [{ id := "f1", name := "Folder" }]
    ciphers := [iGood]
    folder_relationships := [] }

/-- An import batch with one folder and one item owned by someone else. -/
def pBad : ImportRequest :=
  { folders := [{ id := "f1", name := "Folder" }]
    ciphers := [iBad]
    folder_relationships := [] }

/-- An import batch with one folder (client-supplied id "tmp-1") and no
items. -/
def pFolderOnly : ImportRequest :=
  { folders := [{ id := "tmp-1", name := "Legacy" }]
    ciphers := []
    folder_relationships := [] }

/-- A second concrete import item (distinct name). -/
def iW1 : ImportCipher := { iGood with name := "item-1" }

/-- Concrete folders and items for the relationship-resolution example. -/
def fW0 : ImportFolder := { id := "folder-0", name := "F0" }

/-- Second concrete folder for the relationship-resolution example. -/
def fW1 : ImportFolder := { id := "folder-1", name := "F1" }

/-- A concrete login cipher used to evaluate the serializer. -/
def cW : Cipher :=
  { id := "c1"
    user_id := some "u1"
    organization_id := none
    type := 1
    data := Json.obj [("name", Json.str "N"), ("login", Json.str "L")]
    favorite := false
    folder_id := none
    deleted_at := none
    created_at := "2024-01-01T00:00:00.000Z"
    updated_at := "2024-01-01T00:00:00.000Z"
    object := "cipher"
    organization_use_totp := false
    edit := true
    view_password := true
    collection_ids := none }

/-- A concrete database row whose `data` text is not valid JSON. -/
def mW : CipherDBModel :=
  { id := "c2"
    user_id := "u1"
    organization_id := none
    type := 1
    data := "&&& not json"
    favorite := 0
    folder_id := none
    deleted_at := none
    created_at := "2024-01-01T00:00:00.000Z"
    updated_at := "2024-01-01T00:00:00.000Z" }

/-- A concrete create request used to evaluate the create handler's cipher. -/
def reqW : CreateCipherRequest :=
  { cipher :=
      { type := 1
        folder_id := none
        organization_id := none
        name := "N"
        notes := none
        favorite := false
        login := some (Json.str "L")
        card := none
        identity := none
        secure_note := none
        fields := none
        password_history := none
        reprompt := none
        last_known_revision_date := none
        key := none }
    collection_ids := [] }

/-! ## Theorems -/

/-- Claim C9: decoding a boolean-like field maps the integer 1 and the
boolean `true` to the canonical `true`, the integer 0 and the boolean
`false` to `false`, and rejects every other integer with a decode error
(which fails the request, since serde decode errors abort deserialization
of the whole payload). -/
theorem c9_bool_coercion :
    deserialize_bool_from_int (Json.num 1) = Except.ok true
    ∧ deserialize_bool_from_int (Json.bool true) = Except.ok true
    ∧ deserialize_bool_from_int (Json.num 0) = Except.ok false
    ∧ deserialize_bool_from_int (Json.bool false) = Except.ok false
    ∧ ∀ n : Int, n ≠ 0 → n ≠ 1 →
        deserialize_bool_from_int (Json.num n)
          = Except.error "invalid value: expected 0 or 1" := by
  refine ⟨rfl, rfl, rfl, rfl, ?_⟩
  intro n h0 h1
  simp [deserialize_bool_from_int, h0, h1]

/-- Witness for C9: the integer 2 is rejected. -/
theorem c9_bool_coercion_witness :
    deserialize_bool_from_int (Json.num 2)
      = Except.error "invalid value: expected 0 or 1" :=
  c9_bool_coercion.2.2.2.2 2 (by decide) (by decide)

/-- Claim C10: the encoded client JSON contains a "userId" key if and only
if the cipher's owner id is present; when present its value is the owner
id, when absent the key is omitted entirely. -/
theorem c10_userId_conditional (c : Cipher) :
    objGet (serializeCipher c) "userId" = c.user_id.map Json.str := by
  obtain ⟨i, u, o, t, d, fav, fid, del, ca, ua, ob, tot, ed, vp, col⟩ := c
  cases u <;> cases d <;> rfl

/-- Claim C4: for a stored cipher whose payload parses as a JSON object and
whose kind is in {1, 2, 3, 4}, encoding populates exactly the payload field
named for the kind (with the payload's value for that field, or null when
the payload lacks it) and emits the other three of
login/secureNote/card/identity as explicit JSON null — present, not
omitted. -/
theorem c4_kind_selects_payload_field (c : Cipher) (fs : List (String × Json))
    (hobj : c.data = Json.obj fs)
    (hk : c.type = 1 ∨ c.type = 2 ∨ c.type = 3 ∨ c.type = 4) :
    objGet (serializeCipher c) (selName c.type)
        = some ((objGet fs (selName c.type)).getD Json.null)
    ∧ ∀ fieldName ∈ ["login", "secureNote", "card", "identity"],
        fieldName ≠ selName c.type →
          objGet (serializeCipher c) fieldName = some Json.null := by
  obtain ⟨i, u, o, t, d, fav, fid, del, ca, ua, ob, tot, ed, vp, col⟩ := c
  simp only at hobj hk ⊢
  subst hobj
  rcases hk with h | h | h | h <;> subst h <;> cases u <;>
    exact ⟨rfl, by
      intro fieldName hmem hne
      fin_cases hmem <;> first | exact absurd rfl hne | rfl⟩

/-- Witness for C4: a concrete login cipher; the login field carries the
payload value and the card sibling is explicit null. -/
theorem c4_kind_selects_payload_field_witness :
    objGet (serializeCipher cW) "login" = some (Json.str "L")
    ∧ objGet (serializeCipher cW) "card" = some Json.null := by
  have h := c4_kind_selects_payload_field cW [("name", Json.str "N"), ("login", Json.str "L")]
    rfl (Or.inl rfl)
  exact ⟨h.1, h.2 "card" (by decide) (by decide)⟩

/-- Claim C6: a stored cipher whose payload blob is malformed (the parse
fails, so `unwrap_or_default` yields `Value::Null`) or parses to a
non-object still encodes successfully — `serializeCipher` is total, the
response map is always produced — with all nine payload-derived fields
(name, notes, fields, passwordHistory, reprompt, login, secureNote, card,
identity) emitted as JSON null. -/
theorem c6_malformed_payload_degrades_to_null :
    (∀ (fromStr : String → Option Json) (m : CipherDBModel),
        fromStr m.data = none → (cipherOfDBModel fromStr m).data = Json.null)
    ∧ ∀ (c : Cipher), isObjJson c.data = false →
        ∀ fieldName ∈ ["name", "notes", "fields", "passwordHistory", "reprompt",
                       "login", "secureNote", "card", "identity"],
          objGet (serializeCipher c) fieldName = some Json.null := by
  constructor
  · intro fromStr m h
    simp [cipherOfDBModel, h]
  · intro c h fieldName hmem
    obtain ⟨i, u, o, t, d, fav, fid, del, ca, ua, ob, tot, ed, vp, col⟩ := c
    cases d <;> simp [isObjJson] at h <;> cases u <;> fin_cases hmem <;> rfl

/-- Witness for C6: a row whose blob fails to parse yields a null payload,
and its encoding emits (for example) a null login field. -/
theorem c6_malformed_payload_degrades_to_null_witness :
    (cipherOfDBModel (fun _ => none) mW).data = Json.null
    ∧ objGet (serializeCipher (cipherOfDBModel (fun _ => none) mW)) "login"
        = some Json.null := by
  have h := c6_malformed_payload_degrades_to_null
  exact ⟨h.1 (fun _ => none) mW rfl, h.2 (cipherOfDBModel (fun _ => none) mW) rfl "login" (by decide)⟩

/-- Claim C7 (code bug): the `object` field is NOT one constant across how
the record was obtained.  A cipher loaded from a storage row encodes
`object = "default_object"` (the string literal at
`src/models/cipher.rs` line 137), while a freshly created cipher encodes
`object = "cipher"` — the value of the code's own `default_object`
function, which line 137 plainly meant to call. -/
theorem c7_object_literal_differs_for_db_rows :
    objGet (serializeCipher (cipherOfDBModel (fun _ => none) mW)) "object"
        = some (Json.str "default_object")
    ∧ objGet (serializeCipher (create_cipher "u1" "t" "id1" reqW)) "object"
        = some (Json.str "cipher")
    ∧ default_object = "cipher"
    ∧ (("default_object" : String) == "cipher") = false := by
  refine ⟨rfl, rfl, rfl, by decide⟩

/-- The fuel argument of `chunksOfAux` is irrelevant once it bounds the list
length (each step consumes at least one element when `1 ≤ c`). -/
theorem chunksOfAux_congr (c : Nat) (hc : 1 ≤ c) :
    ∀ (fuel1 fuel2 : Nat) (xs : List α), xs.length ≤ fuel1 → xs.length ≤ fuel2 →
      chunksOfAux fuel1 c xs = chunksOfAux fuel2 c xs := by
  intro fuel1
  induction fuel1 with
  | zero =>
    intro fuel2 xs h1 _
    have hx : xs = [] := List.length_eq_zero.mp (Nat.le_zero.mp h1)
    subst hx
    cases fuel2 <;> rfl
  | succ f ih =>
    intro fuel2 xs h1 h2
    cases xs with
    | nil => cases fuel2 <;> rfl
    | cons x rest =>
      cases fuel2 with
      | zero => simp at h2
      | succ f2 =>
        show ((x :: rest).take c :: chunksOfAux f c ((x :: rest).drop c))
            = ((x :: rest).take c :: chunksOfAux f2 c ((x :: rest).drop c))
        have hlen : ((x :: rest).drop c).length ≤ rest.length := by
          simp only [List.length_drop, List.length_cons]
          omega
        have hl1 : ((x :: rest).drop c).length ≤ f := by
          simp only [List.length_cons] at h1
          omega
        have hl2 : ((x :: rest).drop c).length ≤ f2 := by
          simp only [List.length_cons] at h2
          omega
        rw [ih _ _ hl1 hl2]

/-- Unfolding equation for `chunksOf` on a nonempty list (chunk size at
least 1). -/
theorem chunksOf_cons_eq (c : Nat) (hc : 1 ≤ c) (x : α) (rest : List α) :
    chunksOf c (x :: rest)
      = (x :: rest).take c :: chunksOf c ((x :: rest).drop c) := by
  show ((x :: rest).take c :: chunksOfAux rest.length c ((x :: rest).drop c))
      = (x :: rest).take c :: chunksOfAux ((x :: rest).drop c).length c ((x :: rest).drop c)
  have hlen : ((x :: rest).drop c).length ≤ rest.length := by
    simp only [List.length_drop, List.length_cons]
    omega
  rw [chunksOfAux_congr c hc rest.length ((x :: rest).drop c).length _ hlen (Nat.le_refl _)]

/-- Concatenating the chunks restores the operation list in input order. -/
theorem chunksOf_flatten (c : Nat) (hc : 1 ≤ c) :
    ∀ xs : List α, (chunksOf c xs).flatten = xs := by
  have key : ∀ (n : Nat) (xs : List α), xs.length ≤ n → (chunksOf c xs).flatten = xs := by
    intro n
    induction n with
    | zero =>
      intro xs h
      have hx : xs = [] := List.length_eq_zero.mp (Nat.le_zero.mp h)
      subst hx
      rfl
    | succ m ih =>
      intro xs h
      cases xs with
      | nil => rfl
      | cons x rest =>
        have hlen : ((x :: rest).drop c).length ≤ m := by
          simp only [List.length_drop, List.length_cons]
          simp only [List.length_cons] at h
          omega
        rw [chunksOf_cons_eq c hc, List.flatten_cons, ih _ hlen, List.take_append_drop]
  intro xs
  exact key xs.length xs (Nat.le_refl _)

/-- Every chunk is nonempty and holds at most `c` elements. -/
theorem chunksOf_mem_bound (c : Nat) (hc : 1 ≤ c) :
    ∀ (xs : List α) (ch : List α), ch ∈ chunksOf c xs → ch.length ≤ c ∧ ch ≠ [] := by
  have key : ∀ (n : Nat) (xs : List α), xs.length ≤ n →
      ∀ ch ∈ chunksOf c xs, ch.length ≤ c ∧ ch ≠ [] := by
    intro n
    induction n with
    | zero =>
      intro xs h ch hmem
      have hx : xs = [] := List.length_eq_zero.mp (Nat.le_zero.mp h)
      subst hx
      simp [chunksOf, chunksOfAux] at hmem
    | succ m ih =>
      intro xs h ch hmem
      cases xs with
      | nil => simp [chunksOf, chunksOfAux] at hmem
      | cons x rest =>
        rw [chunksOf_cons_eq c hc] at hmem
        rcases List.mem_cons.mp hmem with heq | htail
        · subst heq
          constructor
          · simp
          · intro hnil
            have h2 := congrArg List.length hnil
            simp at h2
            omega
        · have hlen : ((x :: rest).drop c).length ≤ m := by
            simp only [List.length_drop, List.length_cons]
            simp only [List.length_cons] at h
            omega
          exact ih ((x :: rest).drop c) hlen ch htail
  intro xs
  exact key xs.length xs (Nat.le_refl _)

/-- Running a chunk sequence whose prefix succeeds and whose next chunk
fails stops at the failure: the state reached is the one after the prefix,
the remaining chunks are never attempted, and the failure is surfaced. -/
theorem runBatches_append_fail (appB : σ → List α → Option σ)
    (bad : List α) (rest : List (List α)) :
    ∀ (pre : List (List α)) (st st1 : σ),
      runBatches appB st pre = (st1, true) → appB st1 bad = none →
      runBatches appB st (pre ++ bad :: rest) = (st1, false) := by
  intro pre
  induction pre with
  | nil =>
    intro st st1 hrun hbad
    have hst : st = st1 := by
      simpa [runBatches] using congrArg Prod.fst hrun
    subst hst
    simp [runBatches, hbad]
  | cons ch pre ih =>
    intro st st1 hrun hbad
    cases hch : appB st ch with
    | none =>
      simp only [runBatches, hch] at hrun
      simp at hrun
    | some st2 =>
      simp only [runBatches, hch] at hrun
      rw [List.cons_append]
      simp only [runBatches, hch]
      exact ih st2 st1 hrun hbad

/-- Claim C5: the batched executor's contract.  (i) `chunkSize = 0` executes
all operations as one batch whose outcome is the whole result.  (ii) For a
positive `chunkSize`, the chunks concatenate back to the operation list in
input order, and every chunk is nonempty with at most `chunkSize`
operations.  (iii) Five operations with `chunkSize = 2` give exactly three
chunk executions of sizes 2, 2, 1.  (iv) If the chunk list splits as
`pre ++ bad :: rest` where every chunk of `pre` succeeds and `bad` fails,
execution of the whole list applies exactly the chunks of `pre`, aborts
`rest`, and surfaces the failure. -/
theorem c5_execute_in_batches_contract :
    (∀ (σ α : Type) (appB : σ → List α → Option σ) (st : σ) (ops : List α),
        ops ≠ [] →
        execute_in_batches appB st ops 0
          = match appB st ops with
            | some st1 => (st1, true)
            | none => (st, false))
    ∧ (∀ (α : Type) (c : Nat), 1 ≤ c → ∀ ops : List α,
        (chunksOf c ops).flatten = ops
        ∧ ∀ ch ∈ chunksOf c ops, ch.length ≤ c ∧ ch ≠ [])
    ∧ (∀ (α : Type) (ops : List α), ops.length = 5 →
        (chunksOf 2 ops).map List.length = [2, 2, 1])
    ∧ (∀ (σ α : Type) (appB : σ → List α → Option σ) (st st1 : σ) (ops : List α)
        (c : Nat) (pre : List (List α)) (bad : List α) (rest : List (List α)),
        1 ≤ c →
        chunksOf c ops = pre ++ bad :: rest →
        runBatches appB st pre = (st1, true) →
        appB st1 bad = none →
        execute_in_batches appB st ops c = (st1, false)) := by
  refine ⟨?_, ?_, ?_, ?_⟩
  · intro σ α appB st ops hne
    cases ops with
    | nil => exact absurd rfl hne
    | cons x rest => rfl
  · intro α c hc ops
    exact ⟨chunksOf_flatten c hc ops, fun ch hch => chunksOf_mem_bound c hc ops ch hch⟩
  · intro α ops h
    rcases ops with _ | ⟨a, _ | ⟨b, _ | ⟨x, _ | ⟨d, _ | ⟨e, _ | ⟨f, tl⟩⟩⟩⟩⟩⟩ <;>
      simp only [List.length_cons, List.length_nil] at h <;> first | rfl | omega
  · intro σ α appB st st1 ops c pre bad rest hc hchunks hrun hbad
    have hne : ops ≠ [] := by
      intro h
      subst h
      have h0 : ([] : List (List α)) = pre ++ bad :: rest := hchunks
      exact absurd h0.symm (by simp)
    obtain ⟨x, xs, rfl⟩ : ∃ y ys, ops = y :: ys := by
      cases ops with
      | nil => exact absurd rfl hne
      | cons y ys => exact ⟨y, ys, rfl⟩
    have hcz : ¬(c = 0) := by omega
    show (if (x :: xs).isEmpty then ((st, true) : σ × Bool)
      else if c = 0 then
        match appB st (x :: xs) with
        | some st2 => (st2, true)
        | none => (st, false)
      else runBatches appB st (chunksOf c (x :: xs))) = (st1, false)
    rw [if_neg (by simp), if_neg hcz, hchunks]
    exact runBatches_append_fail appB bad rest pre st st1 hrun hbad

/-- Setting an index to the value it already holds is the identity. -/
theorem set_of_getElem?_eq {β : Type} : ∀ (l : List β) (n : Nat) (b : β),
    l[n]? = some b → l.set n b = l := by
  intro l
  induction l with
  | nil => intro n b h; simp at h
  | cons x t ih =>
    intro n b h
    cases n with
    | zero =>
      simp at h
      simp [List.set, h]
    | succ m =>
      simp at h
      simp [List.set, ih m b h]

/-- `relStep` preserves the number of items. -/
theorem relStep_length (folders : List ImportFolder) (cs : List ImportCipher)
    (rel : FolderRelationship) : (relStep folders cs rel).length = cs.length := by
  unfold relStep
  cases cs[rel.key]? <;> cases folders[rel.value]? <;> simp

/-- Relationship resolution preserves the number of items. -/
theorem applyRelationships_length (folders : List ImportFolder) :
    ∀ (rels : List FolderRelationship) (cs : List ImportCipher),
      (applyRelationships folders rels cs).length = cs.length := by
  intro rels
  induction rels with
  | nil => intro cs; rfl
  | cons r rels ih =>
    intro cs
    show (applyRelationships folders rels (relStep folders cs r)).length = cs.length
    rw [ih, relStep_length]

/-- Relationship resolution only touches `folder_id`: the `encrypted_for`
projection of the item list is unchanged. -/
theorem applyRelationships_map_encrypted (folders : List ImportFolder) :
    ∀ (rels : List FolderRelationship) (cs : List ImportCipher),
      (applyRelationships folders rels cs).map (fun c => c.encrypted_for)
        = cs.map (fun c => c.encrypted_for) := by
  intro rels
  induction rels with
  | nil => intro cs; rfl
  | cons r rels ih =>
    intro cs
    show (applyRelationships folders rels (relStep folders cs r)).map _ = _
    rw [ih]
    unfold relStep
    cases hk : cs[r.key]? with
    | none => rfl
    | some c =>
      cases hf : folders[r.value]? with
      | none => rfl
      | some f =>
        show (cs.set r.key { c with folder_id := some f.id }).map (fun c => c.encrypted_for)
            = cs.map (fun c => c.encrypted_for)
        rw [List.map_set]
        exact set_of_getElem?_eq _ _ _ (by rw [List.getElem?_map, hk]; rfl)

/-- Relationship resolution preserves which items are owned by `sub`. -/
theorem applyRelationships_owned (sub : String) (folders : List ImportFolder)
    (rels : List FolderRelationship) (cs : List ImportCipher) :
    (∀ c ∈ applyRelationships folders rels cs, c.encrypted_for = sub)
      ↔ (∀ c ∈ cs, c.encrypted_for = sub) := by
  have h := applyRelationships_map_encrypted folders rels cs
  constructor
  · intro hall c hc
    have : c.encrypted_for ∈ cs.map (fun c => c.encrypted_for) := List.mem_map_of_mem _ hc
    rw [← h] at this
    obtain ⟨c2, hc2, he⟩ := List.mem_map.mp this
    rw [← he]
    exact hall c2 hc2
  · intro hall c hc
    have : c.encrypted_for ∈ (applyRelationships folders rels cs).map (fun c => c.encrypted_for) :=
      List.mem_map_of_mem _ hc
    rw [h] at this
    obtain ⟨c2, hc2, he⟩ := List.mem_map.mp this
    rw [← he]
    exact hall c2 hc2

/-- When every item is owned by the principal, the cipher-statement loop
produces one row per item, the `i`-th row carrying the `i`-th generated
uuid. -/
theorem buildCipherRows_ok (sub now : String) (gen : Nat → String) :
    ∀ (cs : List ImportCipher) (i : Nat), (∀ c ∈ cs, c.encrypted_for = sub) →
      buildCipherRows sub now gen i cs
        = Except.ok (mapWithIndex (fun j c => importCipherRow sub now (gen j) c) i cs) := by
  intro cs
  induction cs with
  | nil => intro i _; rfl
  | cons c rest ih =>
    intro i h
    have hc : c.encrypted_for = sub := h c (List.mem_cons_self c rest)
    have hrest : ∀ x ∈ rest, x.encrypted_for = sub := fun x hx => h x (List.mem_cons_of_mem c hx)
    show (if c.encrypted_for == sub then _ else _) = _
    rw [if_pos (by simp [hc]), ih (i + 1) hrest]
    rfl

/-- When some item is not owned by the principal, the cipher-statement loop
aborts with the bad-request error. -/
theorem buildCipherRows_err (sub now : String) (gen : Nat → String) :
    ∀ (cs : List ImportCipher) (i : Nat), ¬(∀ c ∈ cs, c.encrypted_for = sub) →
      buildCipherRows sub now gen i cs
        = Except.error (AppError.BadRequest "Cipher encrypted for wrong user") := by
  intro cs
  induction cs with
  | nil => intro i h; exact absurd (by intro c hc; simp at hc) h
  | cons c rest ih =>
    intro i h
    by_cases hc : c.encrypted_for = sub
    · have hrest : ¬(∀ x ∈ rest, x.encrypted_for = sub) := by
        intro hall
        exact h (by
          intro x hx
          rcases List.mem_cons.mp hx with rfl | hx2
          · exact hc
          · exact hall x hx2)
      show (if c.encrypted_for == sub then _ else _) = _
      rw [if_pos (by simp [hc]), ih (i + 1) hrest]
    · show (if c.encrypted_for == sub then _ else _) = _
      rw [if_neg (by simp [hc])]

/-- The concrete import statements never fail, so the chunk loop applies
every statement in order. -/
theorem runBatches_applyBatch :
    ∀ (chunks : List (List Stmt)) (db : Db),
      runBatches applyBatch db chunks
        = (chunks.foldl (fun d ch => ch.foldl applyStmt d) db, true) := by
  intro chunks
  induction chunks with
  | nil => intro db; rfl
  | cons ch rest ih =>
    intro db
    show runBatches applyBatch _ _ = _
    simp only [runBatches, applyBatch]
    rw [ih]
    rfl

/-- The batched executor on the concrete import statements reduces to one
left fold of `INSERT OR IGNORE` applications, for every chunk size. -/
theorem execute_in_batches_applyBatch (db : Db) (stmts : List Stmt) (bs : Nat) :
    execute_in_batches applyBatch db stmts bs = (stmts.foldl applyStmt db, true) := by
  cases stmts with
  | nil => rfl
  | cons s rest =>
    by_cases hbs : bs = 0
    · subst hbs; rfl
    · show (if (s :: rest).isEmpty then ((db, true) : Db × Bool)
        else if bs = 0 then
          match applyBatch db (s :: rest) with
          | some db1 => (db1, true)
          | none => (db, false)
        else runBatches applyBatch db (chunksOf bs (s :: rest))) = _
      rw [if_neg (by simp), if_neg hbs, runBatches_applyBatch]
      rw [← List.foldl_flatten, chunksOf_flatten bs (Nat.one_le_iff_ne_zero.mpr hbs)]

/-- Folder insert statements never touch the `ciphers` table. -/
theorem foldl_insertFolder_ciphers {β : Type} (g : β → Folder) :
    ∀ (l : List β) (db : Db),
      ((l.map (fun a => Stmt.insertFolder (g a))).foldl applyStmt db).ciphers = db.ciphers := by
  intro l
  induction l with
  | nil => intro db; rfl
  | cons a rest ih =>
    intro db
    show ((rest.map _).foldl applyStmt (applyStmt db (Stmt.insertFolder (g a)))).ciphers = _
    rw [ih]
    simp only [applyStmt]
    split <;> rfl

/-- Cipher insert statements never touch the `folders` table. -/
theorem foldl_insertCipher_folders :
    ∀ (rows : List CipherRow) (db : Db),
      ((rows.map Stmt.insertCipher).foldl applyStmt db).folders = db.folders := by
  intro rows
  induction rows with
  | nil => intro db; rfl
  | cons r rest ih =>
    intro db
    show ((rest.map _).foldl applyStmt (applyStmt db (Stmt.insertCipher r))).folders = _
    rw [ih]
    simp only [applyStmt]
    split <;> rfl

/-- `import_data` unfolded: the folder phase always executes first and in
full; the ownership check then either aborts (keeping the folder-phase
state) or the cipher rows are inserted. -/
theorem import_data_eq (sub now : String) (bs : Nat) (gen : Nat → String)
    (payload : ImportRequest) (db : Db) :
    import_data sub now bs gen payload db
      = (match buildCipherRows sub now gen 0
            (applyRelationships payload.folders payload.folder_relationships payload.ciphers) with
         | Except.error e => ((folderStatements sub now payload).foldl applyStmt db, Except.error e)
         | Except.ok rows =>
             ((rows.map Stmt.insertCipher).foldl applyStmt
                ((folderStatements sub now payload).foldl applyStmt db), Except.ok ())) := by
  simp only [import_data, execute_in_batches_applyBatch]

/-- Claim C1 (amended): an unowned item makes the import fail with the
bad-request error "Cipher encrypted for wrong user" and no cipher row from
the call is persisted, but the folder inserts — executed before the
ownership check — remain applied. -/
theorem c1_unowned_item_aborts_after_folder_phase (sub now : String) (bs : Nat)
    (gen : Nat → String) (payload : ImportRequest) (db : Db)
    (hbad : ∃ c ∈ payload.ciphers, c.encrypted_for ≠ sub) :
    (import_data sub now bs gen payload db).2
        = Except.error (AppError.BadRequest "Cipher encrypted for wrong user")
    ∧ (import_data sub now bs gen payload db).1.ciphers = db.ciphers
    ∧ (import_data sub now bs gen payload db).1.folders
        = ((folderStatements sub now payload).foldl applyStmt db).folders := by
  have hnot : ¬(∀ c ∈ applyRelationships payload.folders payload.folder_relationships
      payload.ciphers, c.encrypted_for = sub) := by
    rw [applyRelationships_owned sub]
    obtain ⟨c, hc, hne⟩ := hbad
    intro hall
    exact hne (hall c hc)
  have herr := buildCipherRows_err sub now gen _ 0 hnot
  rw [import_data_eq, herr]
  exact ⟨rfl, foldl_insertFolder_ciphers (importFolderRecord sub now) payload.folders db, rfl⟩

/-- Witness for C1's amended theorem at the concrete violating batch. -/
theorem c1_unowned_item_aborts_after_folder_phase_witness :
    (import_data "u1" "t1" 30 (fun _ => "uuid-0") pBad emptyDb).2
        = Except.error (AppError.BadRequest "Cipher encrypted for wrong user")
    ∧ (import_data "u1" "t1" 30 (fun _ => "uuid-0") pBad emptyDb).1.ciphers = emptyDb.ciphers
    ∧ (import_data "u1" "t1" 30 (fun _ => "uuid-0") pBad emptyDb).1.folders
        = ((folderStatements "u1" "t1" pBad).foldl applyStmt emptyDb).folders :=
  c1_unowned_item_aborts_after_folder_phase "u1" "t1" 30 (fun _ => "uuid-0") pBad emptyDb
    ⟨iBad, List.mem_cons_self iBad [], by decide⟩

/-- Counterexample to claim C1 as stated: for the one-folder batch `pBad`
whose only item is encrypted for "attacker", the import fails — yet the
folder record is persisted and visible, so "zero records persisted" is
false. -/
theorem c1_counterexample_folder_persisted :
    (import_data "u1" "t1" 30 (fun _ => "uuid-0") pBad emptyDb).1.folders
      = [{ id := "f1", user_id := "u1", name := "Folder",
           created_at := "t1", updated_at := "t1" }]
    ∧ (import_data "u1" "t1" 30 (fun _ => "uuid-0") pBad emptyDb).2
      = Except.error (AppError.BadRequest "Cipher encrypted for wrong user") :=
  ⟨rfl, rfl⟩

/-- Folder ids survive any further statement applications. -/
theorem foldl_applyStmt_folderIds_mono :
    ∀ (stmts : List Stmt) (db : Db) (x : String),
      x ∈ db.folders.map (fun g => g.id) →
      x ∈ ((stmts.foldl applyStmt db).folders.map (fun g => g.id)) := by
  intro stmts
  induction stmts with
  | nil => intro db x h; exact h
  | cons s rest ih =>
    intro db x h
    refine ih _ x ?_
    cases s with
    | insertFolder f =>
      simp only [applyStmt]
      split
      · exact h
      · rw [List.map_append]
        exact List.mem_append_left _ h
    | insertCipher r =>
      simp only [applyStmt]
      split <;> exact h

/-- After folding the folder statements, every imported folder's
(client-supplied) id is present in the table. -/
theorem foldl_insertFolder_id_present (sub now : String) :
    ∀ (l : List ImportFolder) (db : Db) (f : ImportFolder), f ∈ l →
      f.id ∈ ((l.map (fun a => Stmt.insertFolder (importFolderRecord sub now a))).foldl
          applyStmt db).folders.map (fun g => g.id) := by
  intro l
  induction l with
  | nil => intro db f hf; simp at hf
  | cons a rest ih =>
    intro db f hf
    show f.id ∈ ((rest.map _).foldl applyStmt
      (applyStmt db (Stmt.insertFolder (importFolderRecord sub now a)))).folders.map _
    rcases List.mem_cons.mp hf with rfl | hf2
    · have hstep : f.id ∈ (applyStmt db
          (Stmt.insertFolder (importFolderRecord sub now f))).folders.map (fun g => g.id) := by
        simp only [applyStmt]
        split
        · next hany =>
            obtain ⟨g, hg, hgid⟩ := List.any_eq_true.mp hany
            have : g.id = f.id := by simpa using hgid
            exact this ▸ List.mem_map_of_mem _ hg
        · simp [importFolderRecord]
      exact foldl_applyStmt_folderIds_mono _ _ _ hstep
    · exact ih _ f hf2

/-- When every imported folder id is already present, the folder insert
phase is a no-op on the whole database state. -/
theorem foldl_insertFolder_id_subset_eq (sub now : String) :
    ∀ (l : List ImportFolder) (db : Db),
      (∀ f ∈ l, f.id ∈ db.folders.map (fun g => g.id)) →
      (l.map (fun a => Stmt.insertFolder (importFolderRecord sub now a))).foldl applyStmt db
        = db := by
  intro l
  induction l with
  | nil => intro db _; rfl
  | cons a rest ih =>
    intro db h
    have ha : a.id ∈ db.folders.map (fun g => g.id) := h a (List.mem_cons_self a rest)
    obtain ⟨g, hg, hgid⟩ := List.mem_map.mp ha
    have hany : db.folders.any (fun g2 => g2.id == (importFolderRecord sub now a).id) = true :=
      List.any_eq_true.mpr ⟨g, hg, by simp [importFolderRecord, hgid]⟩
    show (rest.map _).foldl applyStmt
      (applyStmt db (Stmt.insertFolder (importFolderRecord sub now a))) = db
    have hstep : applyStmt db (Stmt.insertFolder (importFolderRecord sub now a)) = db := by
      simp only [applyStmt, hany]
      rfl
    rw [hstep]
    exact ih db (fun f hf => h f (List.mem_cons_of_mem a hf))

/-- `mapWithIndex` preserves length. -/
theorem mapWithIndex_length {α β : Type} (f : Nat → α → β) :
    ∀ (l : List α) (i : Nat), (mapWithIndex f i l).length = l.length := by
  intro l
  induction l with
  | nil => intro i; rfl
  | cons a rest ih =>
    intro i
    show (f i a :: mapWithIndex f (i + 1) rest).length = rest.length + 1
    rw [List.length_cons, ih]

/-- Inserting rows whose generated ids are pairwise distinct and absent from
the table appends them all: nothing is ignored, folders untouched. -/
theorem foldl_insertCipher_fresh (sub now : String) (gen : Nat → String) :
    ∀ (l : List ImportCipher) (i : Nat) (db : Db),
      (∀ a b, i ≤ a → a < b → b < i + l.length → gen a ≠ gen b) →
      (∀ a, i ≤ a → a < i + l.length → ∀ r ∈ db.ciphers, gen a ≠ r.id) →
      ((mapWithIndex (fun n c => importCipherRow sub now (gen n) c) i l).map
          Stmt.insertCipher).foldl applyStmt db
        = { db with ciphers :=
              db.ciphers ++ mapWithIndex (fun n c => importCipherRow sub now (gen n) c) i l } := by
  intro l
  induction l with
  | nil =>
    intro i db _ _
    show db = { db with ciphers := db.ciphers ++ ([] : List CipherRow) }
    simp
  | cons c rest ih =>
    intro i db hinj hdb
    have hfresh0 : ∀ r ∈ db.ciphers, gen i ≠ r.id :=
      hdb i (Nat.le_refl i) (by simp only [List.length_cons]; omega)
    have hany : db.ciphers.any
        (fun s => s.id == (importCipherRow sub now (gen i) c).id) = false := by
      rw [List.any_eq_false]
      intro r hr
      simp only [importCipherRow, beq_iff_eq]
      exact fun he => hfresh0 r hr he.symm
    have hstep : applyStmt db (Stmt.insertCipher (importCipherRow sub now (gen i) c))
        = { db with ciphers := db.ciphers ++ [importCipherRow sub now (gen i) c] } := by
      simp only [applyStmt, hany]
      rfl
    show ((mapWithIndex _ (i + 1) rest).map Stmt.insertCipher).foldl applyStmt
        (applyStmt db (Stmt.insertCipher (importCipherRow sub now (gen i) c))) = _
    rw [hstep]
    rw [ih (i + 1) _ ?hinj2 ?hdb2]
    · simp [mapWithIndex, List.append_assoc]
    case hinj2 =>
      intro a b ha hab hb
      have hb2 : b < i + (c :: rest).length := by simp only [List.length_cons]; omega
      exact hinj a b (by omega) hab hb2
    case hdb2 =>
      intro a ha hb r hr
      rcases List.mem_append.mp hr with hr1 | hr2
      · exact hdb a (by omega) (by simp only [List.length_cons]; omega) r hr1
      · have : r = importCipherRow sub now (gen i) c := List.mem_singleton.mp hr2
        subst this
        show gen a ≠ gen i
        exact (hinj i a (Nat.le_refl i) (by omega)
          (by simp only [List.length_cons]; omega)).symm

/-- `foldl_insertFolder_id_present` restated over `folderStatements`. -/
theorem folderStatements_id_present (sub now : String) (payload : ImportRequest)
    (db : Db) (f : ImportFolder) (hf : f ∈ payload.folders) :
    f.id ∈ ((folderStatements sub now payload).foldl applyStmt db).folders.map
      (fun g => g.id) :=
  foldl_insertFolder_id_present sub now payload.folders db f hf

/-- `foldl_insertFolder_id_subset_eq` restated over `folderStatements`. -/
theorem folderStatements_id_subset_eq (sub now : String) (payload : ImportRequest)
    (db : Db) (h : ∀ f ∈ payload.folders, f.id ∈ db.folders.map (fun g => g.id)) :
    (folderStatements sub now payload).foldl applyStmt db = db :=
  foldl_insertFolder_id_subset_eq sub now payload.folders db h

/-- Claim C2 (amended): importing the same batch twice leaves the stored
folders identical (folder inserts use the client-supplied ids, so the
second run's insert-or-ignore statements are all no-ops) and the second run
succeeds without error — but each run draws fresh uuids for its cipher
rows, so the second run appends one more cipher record per item instead of
being a no-op.  `gen2` freshness/injectivity models `Uuid::new_v4`. -/
theorem c2_reimport_duplicates_items (sub now1 now2 : String) (bs : Nat)
    (gen1 gen2 : Nat → String) (payload : ImportRequest) (db : Db)
    (howned : ∀ c ∈ payload.ciphers, c.encrypted_for = sub)
    (hinj : ∀ a b, a < b → b < payload.ciphers.length → gen2 a ≠ gen2 b)
    (hfresh : ∀ a, a < payload.ciphers.length →
        ∀ r ∈ (import_data sub now1 bs gen1 payload db).1.ciphers, gen2 a ≠ r.id) :
    (import_data sub now2 bs gen2 payload
        (import_data sub now1 bs gen1 payload db).1).2 = Except.ok ()
    ∧ (import_data sub now2 bs gen2 payload
        (import_data sub now1 bs gen1 payload db).1).1.folders
      = (import_data sub now1 bs gen1 payload db).1.folders
    ∧ (import_data sub now2 bs gen2 payload
        (import_data sub now1 bs gen1 payload db).1).1.ciphers.length
      = (import_data sub now1 bs gen1 payload db).1.ciphers.length
        + payload.ciphers.length := by
  have hres_owned : ∀ c ∈ applyRelationships payload.folders
      payload.folder_relationships payload.ciphers, c.encrypted_for = sub :=
    (applyRelationships_owned sub _ _ _).mpr howned
  have hlenres : (applyRelationships payload.folders payload.folder_relationships
      payload.ciphers).length = payload.ciphers.length :=
    applyRelationships_length _ _ _
  have h1 : import_data sub now1 bs gen1 payload db
      = (((mapWithIndex (fun j c => importCipherRow sub now1 (gen1 j) c) 0
            (applyRelationships payload.folders payload.folder_relationships
              payload.ciphers)).map Stmt.insertCipher).foldl applyStmt
          ((folderStatements sub now1 payload).foldl applyStmt db), Except.ok ()) := by
    rw [import_data_eq, buildCipherRows_ok sub now1 gen1 _ 0 hres_owned]
  have hfolders1 : (import_data sub now1 bs gen1 payload db).1.folders
      = ((folderStatements sub now1 payload).foldl applyStmt db).folders := by
    rw [h1]
    exact foldl_insertCipher_folders _ _
  have hids : ∀ f ∈ payload.folders,
      f.id ∈ (import_data sub now1 bs gen1 payload db).1.folders.map (fun g => g.id) := by
    intro f hf
    rw [hfolders1]
    exact folderStatements_id_present sub now1 payload db f hf
  have hinj2 : ∀ a b, 0 ≤ a → a < b →
      b < 0 + (applyRelationships payload.folders payload.folder_relationships
        payload.ciphers).length → gen2 a ≠ gen2 b := by
    intro a b _ hab hb
    rw [Nat.zero_add, hlenres] at hb
    exact hinj a b hab hb
  have hfresh2 : ∀ a, 0 ≤ a →
      a < 0 + (applyRelationships payload.folders payload.folder_relationships
        payload.ciphers).length →
      ∀ r ∈ (import_data sub now1 bs gen1 payload db).1.ciphers, gen2 a ≠ r.id := by
    intro a _ ha r hr
    rw [Nat.zero_add, hlenres] at ha
    exact hfresh a ha r hr
  have h2 : import_data sub now2 bs gen2 payload (import_data sub now1 bs gen1 payload db).1
      = ({ (import_data sub now1 bs gen1 payload db).1 with
            ciphers := (import_data sub now1 bs gen1 payload db).1.ciphers
              ++ mapWithIndex (fun j c => importCipherRow sub now2 (gen2 j) c) 0
                  (applyRelationships payload.folders payload.folder_relationships
                    payload.ciphers) }, Except.ok ()) := by
    rw [import_data_eq, buildCipherRows_ok sub now2 gen2 _ 0 hres_owned,
      folderStatements_id_subset_eq sub now2 payload
        (import_data sub now1 bs gen1 payload db).1 hids]
    exact congrArg (fun d => (d, Except.ok ()))
      (foldl_insertCipher_fresh sub now2 gen2 _ 0
        (import_data sub now1 bs gen1 payload db).1 hinj2 hfresh2)
  refine ⟨?_, ?_, ?_⟩
  · rw [h2]
  · rw [h2]
  · rw [h2]
    show ((import_data sub now1 bs gen1 payload db).1.ciphers ++ _).length = _
    rw [List.length_append, mapWithIndex_length, hlenres]

/-- Witness for C2's amended theorem: the one-item batch `pGood` imported
twice with distinct uuid draws. -/
theorem c2_reimport_duplicates_items_witness :
    (import_data "u1" "t2" 30 (fun _ => "b-0") pGood
        (import_data "u1" "t1" 30 (fun _ => "a-0") pGood emptyDb).1).2 = Except.ok ()
    ∧ (import_data "u1" "t2" 30 (fun _ => "b-0") pGood
        (import_data "u1" "t1" 30 (fun _ => "a-0") pGood emptyDb).1).1.folders
      = (import_data "u1" "t1" 30 (fun _ => "a-0") pGood emptyDb).1.folders
    ∧ (import_data "u1" "t2" 30 (fun _ => "b-0") pGood
        (import_data "u1" "t1" 30 (fun _ => "a-0") pGood emptyDb).1).1.ciphers.length
      = (import_data "u1" "t1" 30 (fun _ => "a-0") pGood emptyDb).1.ciphers.length
        + pGood.ciphers.length := by
  refine c2_reimport_duplicates_items "u1" "t1" "t2" 30
    (fun _ => "a-0") (fun _ => "b-0") pGood emptyDb ?_ ?_ ?_
  · intro c hc
    have hceq : c = iGood := List.mem_singleton.mp hc
    subst hceq
    rfl
  · intro a b hab hb
    have hlen : pGood.ciphers.length = 1 := rfl
    rw [hlen] at hb
    omega
  · intro a _ r hr
    have hmem : r.id ∈ ((import_data "u1" "t1" 30 (fun _ => "a-0") pGood
        emptyDb).1.ciphers.map (fun r2 => r2.id)) := List.mem_map_of_mem _ hr
    rw [show ((import_data "u1" "t1" 30 (fun _ => "a-0") pGood
        emptyDb).1.ciphers.map (fun r2 => r2.id)) = ["a-0"] from rfl] at hmem
    have hid : r.id = "a-0" := List.mem_singleton.mp hmem
    rw [hid]
    show ("b-0" : String) ≠ "a-0"
    decide

/-- Counterexample to claim C2 as stated: importing `pGood` twice does NOT
leave the same final set of stored items as importing it once — the first
run stores one cipher row, the second run (no error) brings the total to
two, because each run draws a fresh uuid and insert-or-ignore never fires
for cipher rows. -/
theorem c2_counterexample_second_run_adds_rows :
    (import_data "u1" "t1" 30 (fun _ => "a-0") pGood emptyDb).1.ciphers.length = 1
    ∧ (import_data "u1" "t2" 30 (fun _ => "b-0") pGood
        (import_data "u1" "t1" 30 (fun _ => "a-0") pGood emptyDb).1).2 = Except.ok ()
    ∧ (import_data "u1" "t2" 30 (fun _ => "b-0") pGood
        (import_data "u1" "t1" 30 (fun _ => "a-0") pGood emptyDb).1).1.ciphers.length = 2 :=
  ⟨rfl, rfl, rfl⟩

/-- The folder phase of the import, projected to the `folders` table, is the
pure insert-or-ignore fold of the built folder records. -/
theorem foldl_insertFolder_folders_eq (sub now : String) :
    ∀ (l : List ImportFolder) (db : Db),
      ((l.map (fun a => Stmt.insertFolder (importFolderRecord sub now a))).foldl
          applyStmt db).folders
        = l.foldl (fun fs f =>
            if fs.any (fun g => g.id == f.id) then fs
            else fs ++ [importFolderRecord sub now f]) db.folders := by
  intro l
  induction l with
  | nil => intro db; rfl
  | cons a rest ih =>
    intro db
    show ((rest.map _).foldl applyStmt
        (applyStmt db (Stmt.insertFolder (importFolderRecord sub now a)))).folders = _
    rw [ih, List.foldl_cons]
    congr 1
    by_cases h : db.folders.any (fun g => g.id == a.id)
    · simp [applyStmt, importFolderRecord, h]
    · simp [applyStmt, importFolderRecord, h]

/-- Claim C8 (amended): the import does NOT assign folders fresh ids.  Each
folder descriptor is persisted under its client-supplied id (via
insert-or-ignore), and relationship resolution maps an in-range
`folderIndex` to that same client-supplied id (the positional mapping the
spec describes exists, but it resolves to the descriptor's own id; fresh
uuids are drawn only for cipher rows). -/
theorem c8_folders_keep_client_ids (sub now : String) (bs : Nat) (gen : Nat → String)
    (payload : ImportRequest) (db : Db) :
    (import_data sub now bs gen payload db).1.folders
      = payload.folders.foldl (fun fs f =>
          if fs.any (fun g => g.id == f.id) then fs
          else fs ++ [importFolderRecord sub now f]) db.folders
    ∧ ∀ (folders : List ImportFolder) (cs : List ImportCipher)
        (rel : FolderRelationship) (f : ImportFolder),
        folders[rel.value]? = some f → rel.key < cs.length →
        (applyRelationships folders [rel] cs)[rel.key]?
          = cs[rel.key]?.map (fun c => { c with folder_id := some f.id }) := by
  constructor
  · cases hb : buildCipherRows sub now gen 0
        (applyRelationships payload.folders payload.folder_relationships payload.ciphers) with
    | error e =>
      rw [import_data_eq, hb]
      exact foldl_insertFolder_folders_eq sub now payload.folders db
    | ok rows =>
      rw [import_data_eq, hb]
      show ((rows.map Stmt.insertCipher).foldl applyStmt
          ((folderStatements sub now payload).foldl applyStmt db)).folders = _
      rw [foldl_insertCipher_folders]
      exact foldl_insertFolder_folders_eq sub now payload.folders db
  · intro folders cs rel f hf hk
    obtain ⟨c, hc⟩ : ∃ c, cs[rel.key]? = some c := ⟨cs[rel.key], List.getElem?_eq_getElem hk⟩
    show (relStep folders cs rel)[rel.key]? = _
    simp only [relStep, hc, hf]
    rw [List.getElem?_set_eq_of_lt _ hk]
    rfl

/-- Witness for C8's amended theorem: folder-only batch persisted under the
client id, and a concrete in-range relationship resolving to that id. -/
theorem c8_folders_keep_client_ids_witness :
    (import_data "u1" "t1" 30 (fun _ => "uuid-0") pFolderOnly emptyDb).1.folders
      = pFolderOnly.folders.foldl (fun fs f =>
          if fs.any (fun g => g.id == f.id) then fs
          else fs ++ [importFolderRecord "u1" "t1" f]) emptyDb.folders
    ∧ (applyRelationships [fW0, fW1] [{ key := 1, value := 0 }] [iGood, iGood])[1]?
      = some { iGood with folder_id := some "folder-0" } := by
  have h := c8_folders_keep_client_ids "u1" "t1" 30 (fun _ => "uuid-0") pFolderOnly emptyDb
  refine ⟨h.1, ?_⟩
  have h2 := h.2 [fW0, fW1] [iGood, iGood] { key := 1, value := 0 } fW0 rfl (by decide)
  exact h2

/-- Counterexample to claim C8 as stated: importing the folder-only batch
`pFolderOnly` (client temporary id "tmp-1") persists the folder under that
very client-supplied id — no freshly generated id replaces it. -/
theorem c8_counterexample_client_id_persisted :
    (import_data "u1" "t1" 30 (fun _ => "uuid-0") pFolderOnly emptyDb).1.folders.map
        (fun g => g.id) = ["tmp-1"]
    ∧ pFolderOnly.folders.map (fun f => f.id) = ["tmp-1"]
    ∧ (import_data "u1" "t1" 30 (fun _ => "uuid-0") pFolderOnly emptyDb).2 = Except.ok () :=
  ⟨rfl, rfl, rfl⟩

/-- Unfolding relationship resolution over an appended last entry. -/
theorem applyRelationships_append (folders : List ImportFolder)
    (rels : List FolderRelationship) (r : FolderRelationship) (cs : List ImportCipher) :
    applyRelationships folders (rels ++ [r]) cs
      = relStep folders (applyRelationships folders rels cs) r := by
  unfold applyRelationships
  rw [List.foldl_append]
  rfl

/-- `lastHit` over an appended last entry. -/
theorem lastHit_append (numFolders : Nat) (rels : List FolderRelationship)
    (r : FolderRelationship) (i : Nat) :
    lastHit numFolders (rels ++ [r]) i
      = if relApplies numFolders i r then some r else lastHit numFolders rels i := by
  unfold lastHit
  rw [List.filter_append]
  by_cases hap : relApplies numFolders i r
  · rw [if_pos hap]
    rw [List.getLast?_append_of_ne_nil _ (by simp [List.filter, hap])]
    simp [List.filter, hap]
  · rw [if_neg hap]
    simp [List.filter, hap]

/-- Characterization of relationship resolution: the item list keeps its
length; an item named by no applicable entry is unchanged; an item named by
at least one applicable entry (in-range `key` equal to its position and
in-range `value`) ends with its `folder_id` set from the folder named by
the LAST such entry, everything else unchanged. -/
theorem applyRelationships_characterization (folders : List ImportFolder) :
    ∀ (rels : List FolderRelationship) (cs : List ImportCipher),
      (applyRelationships folders rels cs).length = cs.length
      ∧ ∀ i, i < cs.length →
          ((lastHit folders.length rels i = none →
              (applyRelationships folders rels cs)[i]? = cs[i]?)
           ∧ ∀ r, lastHit folders.length rels i = some r →
               ∃ f, folders[r.value]? = some f ∧
                 (applyRelationships folders rels cs)[i]?
                   = cs[i]?.map (fun c => { c with folder_id := some f.id })) := by
  intro rels
  induction rels using List.reverseRecOn with
  | nil =>
    intro cs
    refine ⟨rfl, ?_⟩
    intro i _
    refine ⟨fun _ => rfl, ?_⟩
    intro r hr
    simp [lastHit] at hr
  | append_singleton rels r ihAll =>
    intro cs
    obtain ⟨ihlen, ihget⟩ := ihAll cs
    have hilen : (applyRelationships folders rels cs).length = cs.length := ihlen
    constructor
    · rw [applyRelationships_append, relStep_length, ihlen]
    intro i hi
    rw [applyRelationships_append, lastHit_append]
    by_cases hap : relApplies folders.length i r
    · have hkey : r.key = i := by
        have h2 := hap
        simp only [relApplies, Bool.and_eq_true, beq_iff_eq, decide_eq_true_eq] at h2
        exact h2.1
      have hval : r.value < folders.length := by
        have h2 := hap
        simp only [relApplies, Bool.and_eq_true, beq_iff_eq, decide_eq_true_eq] at h2
        exact h2.2
      rw [if_pos hap]
      obtain ⟨f, hf⟩ : ∃ f, folders[r.value]? = some f :=
        ⟨folders[r.value], List.getElem?_eq_getElem hval⟩
      have hi2 : i < (applyRelationships folders rels cs).length := by
        rw [hilen]; exact hi
      obtain ⟨c0, hc0⟩ : ∃ c0, (applyRelationships folders rels cs)[i]? = some c0 :=
        ⟨(applyRelationships folders rels cs)[i], List.getElem?_eq_getElem hi2⟩
      have hc0k : (applyRelationships folders rels cs)[r.key]? = some c0 := by
        rw [hkey]; exact hc0
      have hstep : relStep folders (applyRelationships folders rels cs) r
          = (applyRelationships folders rels cs).set r.key
              { c0 with folder_id := some f.id } := by
        simp only [relStep, hc0k, hf]
      refine ⟨(fun hnone => absurd hnone (by simp)), ?_⟩
      intro r2 hr2
      have hr2eq : r2 = r := by cases hr2; rfl
      subst hr2eq
      refine ⟨f, hf, ?_⟩
      rw [hstep, hkey, List.getElem?_set_eq_of_lt _ hi2]
      obtain ⟨c1, hc1⟩ : ∃ c1, cs[i]? = some c1 := ⟨cs[i], List.getElem?_eq_getElem hi⟩
      rw [hc1]
      cases hlh : lastHit folders.length rels i with
      | none =>
        have he := (ihget i hi).1 hlh
        rw [he, hc1] at hc0
        cases hc0
        rfl
      | some r3 =>
        obtain ⟨f3, hf3, he⟩ := (ihget i hi).2 r3 hlh
        rw [he, hc1] at hc0
        simp only [Option.map_some'] at hc0
        cases hc0
        rfl
    · rw [if_neg hap]
      have hget : (relStep folders (applyRelationships folders rels cs) r)[i]?
          = (applyRelationships folders rels cs)[i]? := by
        cases hk : (applyRelationships folders rels cs)[r.key]? with
        | none =>
          cases hfv : folders[r.value]? <;> simp only [relStep, hk, hfv]
        | some c =>
          cases hfv : folders[r.value]? with
          | none => simp only [relStep, hk, hfv]
          | some f =>
            simp only [relStep, hk, hfv]
            have hkne : r.key ≠ i := by
              intro hkeq
              apply hap
              have hvlt : r.value < folders.length := by
                by_contra hge
                rw [List.getElem?_eq_none (Nat.le_of_not_lt hge)] at hfv
                cases hfv
              simp [relApplies, hkeq, hvlt]
            exact List.getElem?_set_ne hkne
      refine ⟨?_, ?_⟩
      · intro hnone
        rw [hget]
        exact (ihget i hi).1 hnone
      · intro r2 hr2
        obtain ⟨f, hf, he⟩ := (ihget i hi).2 r2 hr2
        exact ⟨f, hf, by rw [hget, he]⟩

/-- Claim C3: for each `(itemIndex, folderIndex)` relationship with both
indices in range, the item at `itemIndex` gets its `folder_id` set to the
id resolved for the folder at `folderIndex` of the original input sequence
(processing is sequential, so with several applicable entries for one item
the last one wins); out-of-range entries are silently ignored; items named
by no applicable entry are unchanged; and the import's response does not
depend on the relationship list at all (so out-of-range entries never fail
the import). -/
theorem c3_relationship_resolution :
    (∀ (folders : List ImportFolder) (rels : List FolderRelationship)
        (cs : List ImportCipher),
      (applyRelationships folders rels cs).length = cs.length
      ∧ ∀ i, i < cs.length →
          ((lastHit folders.length rels i = none →
              (applyRelationships folders rels cs)[i]? = cs[i]?)
           ∧ ∀ r, lastHit folders.length rels i = some r →
               ∃ f, folders[r.value]? = some f ∧
                 (applyRelationships folders rels cs)[i]?
                   = cs[i]?.map (fun c => { c with folder_id := some f.id })))
    ∧ ∀ (sub now : String) (bs : Nat) (gen : Nat → String) (payload : ImportRequest)
        (db : Db) (rels2 : List FolderRelationship),
        (import_data sub now bs gen { payload with folder_relationships := rels2 } db).2
          = (import_data sub now bs gen payload db).2 := by
  refine ⟨fun folders => applyRelationships_characterization folders, ?_⟩
  intro sub now bs gen payload db rels2
  rw [import_data_eq, import_data_eq]
  rw [show ({ payload with folder_relationships := rels2 } : ImportRequest).folders
      = payload.folders from rfl,
    show ({ payload with folder_relationships := rels2 } : ImportRequest).ciphers
      = payload.ciphers from rfl,
    show ({ payload with folder_relationships := rels2 } : ImportRequest).folder_relationships
      = rels2 from rfl]
  by_cases howned : ∀ c ∈ payload.ciphers, c.encrypted_for = sub
  · rw [buildCipherRows_ok sub now gen _ 0
        ((applyRelationships_owned sub payload.folders rels2 payload.ciphers).mpr howned),
      buildCipherRows_ok sub now gen _ 0
        ((applyRelationships_owned sub payload.folders payload.folder_relationships
          payload.ciphers).mpr howned)]
  · rw [buildCipherRows_err sub now gen _ 0
        (fun hall => howned ((applyRelationships_owned sub payload.folders rels2
          payload.ciphers).mp hall)),
      buildCipherRows_err sub now gen _ 0
        (fun hall => howned ((applyRelationships_owned sub payload.folders
          payload.folder_relationships payload.ciphers).mp hall))]

/-- Witness for C3: folders `[F0, F1]`, items `[I0, I1]`, relationships
`[{key:1, value:0}, {key:5, value:0}]` — the out-of-range entry is ignored,
`I1.folderId` becomes F0's id and `I0` is unchanged. -/
theorem c3_relationship_resolution_witness :
    (applyRelationships [fW0, fW1]
        [{ key := 1, value := 0 }, { key := 5, value := 0 }] [iGood, iW1]).length = 2
    ∧ (applyRelationships [fW0, fW1]
        [{ key := 1, value := 0 }, { key := 5, value := 0 }] [iGood, iW1])[0]? = some iGood
    ∧ (applyRelationships [fW0, fW1]
        [{ key := 1, value := 0 }, { key := 5, value := 0 }] [iGood, iW1])[1]?
      = some { iW1 with folder_id := some "folder-0" } := by
  have h := c3_relationship_resolution.1 [fW0, fW1]
    [{ key := 1, value := 0 }, { key := 5, value := 0 }] [iGood, iW1]
  refine ⟨h.1, ?_, ?_⟩
  · exact ((h.2 0 (by decide)).1 rfl).trans rfl
  · obtain ⟨f, hf, he⟩ := (h.2 1 (by decide)).2 { key := 1, value := 0 } rfl
    have hfw : f = fW0 := by cases hf; rfl
    subst hfw
    exact he.trans rfl

/-- Witness for C5: five operations, chunk size 2, with a synthetic failure
in the second chunk; the executor stops after applying chunk one (state 2),
never attempts chunk three, and surfaces the failure. -/
theorem c5_execute_in_batches_contract_witness :
    execute_in_batches
        (fun (n : Nat) (ch : List Nat) => if ch.contains 9 then none else some (n + ch.length))
        0 [1, 2, 9, 9, 4] 2 = (2, false) :=
  c5_execute_in_batches_contract.2.2.2 Nat Nat
    (fun n ch => if ch.contains 9 then none else some (n + ch.length))
    0 2 [1, 2, 9, 9, 4] 2 [[1, 2]] [9, 9] [[4]] (by decide) rfl rfl rfl

end Warden
